import Mathlib

/-!
Verification of the `dsp_lib` Vector2 component (src/algorithms/vector2.rs).

The Rust code works on `f32` (IEEE-754 binary32).  We model `f32` values
bit-accurately by an inductive type with NaN, the two infinities and finite
values given by a sign, an integer significand and a power-of-two exponent.
Finite results of every arithmetic operation are produced by an exact
round-to-nearest-even rounding of the mathematically exact rational result,
which is the IEEE-754 semantics implemented by the hardware `f32` operations
the Rust code compiles to.  All NaN payloads are collapsed into a single
`nan` value (the Rust code never inspects payloads; `==` treats every NaN
alike), and the two IEEE zeros are kept as distinct representations
`fin false 0 (-149)` and `fin true 0 (-149)`.

All arithmetic is implemented with `Nat`/`Int` operations only, so every
definition is executable and every concrete claim instance can be settled
by `decide`.
-/

/-- Model of an `f32` value: NaN (payloads collapsed), the two infinities,
or a finite value `(-1)^sgn * m * 2^e`.  Canonical finite encodings (the ones
produced by rounding) have `-149 ≤ e ≤ 104`, `m < 2^24`, and either
`2^23 ≤ m` (normal) or `e = -149` (subnormal or zero). -/
inductive F32 where
  | nan : F32
  | inf : F32
  | ninf : F32
  | fin (sgn : Bool) (m : Nat) (e : Int) : F32
deriving DecidableEq

namespace F32

/-- Global power-of-two shift used to turn comparisons of a rational
`num/den` against `2^k` (with `k ≥ -298` an `Int`) into `Nat` comparisons. -/
def shiftE : Nat := 300

/-- `ltPow2 num den k = true` iff `num/den < 2^k` (valid for `k ≥ -shiftE`). -/
def ltPow2 (num den : Nat) (k : Int) : Bool :=
  decide (num * 2 ^ shiftE < den * 2 ^ (k + shiftE).toNat)

/-- `floorShift num den k = ⌊(num/den) / 2^k⌋` (valid for `k ≥ -shiftE`). -/
def floorShift (num den : Nat) (k : Int) : Nat :=
  num * 2 ^ shiftE / (den * 2 ^ (k + shiftE).toNat)

/-- Fuel-driven search for the least exponent `e` at or above the start value
with `num/den < 2^(e+24)`. -/
def findExpAux (num den : Nat) : Nat → Int → Int
  | 0, e => e
  | fuel + 1, e => if ltPow2 num den (e + 24) then e else findExpAux num den fuel (e + 1)

/-- The binary32 exponent slot for the positive rational `num/den`: the least
`e ≥ -149` with `num/den < 2^(e+24)`.  The fuel covers every rational that can
arise from an operation on two binary32 values (absolute value `< 2^280`). -/
def findExp (num den : Nat) : Int :=
  findExpAux num den 500 (-149)

/-- Pack a rounded significand and exponent into a float, renormalising a
carry-out of the significand and overflowing to infinity past `e = 104`
(the exponent of the largest finite binary32 magnitudes). -/
def mkFin (sgn : Bool) (m : Nat) (e : Int) : F32 :=
  if m = 0 then .fin sgn 0 (-149)
  else if m = 2 ^ 24 then
    (if 104 < e + 1 then (if sgn then .ninf else .inf) else .fin sgn (2 ^ 23) (e + 1))
  else if 104 < e then (if sgn then .ninf else .inf)
  else .fin sgn m e

/-- Round the positive rational `num/den` to the nearest binary32 value with
ties to even, attaching sign `sgn`. -/
def roundPos (num den : Nat) (sgn : Bool) : F32 :=
  let e := findExp num den
  let m0 := floorShift num den e
  let l := 2 * num * 2 ^ shiftE
  let r := (2 * m0 + 1) * (den * 2 ^ (e + shiftE).toNat)
  let m := if r < l then m0 + 1 else if l < r then m0
    else if m0 % 2 = 0 then m0 else m0 + 1
  mkFin sgn m e

/-- Round the signed rational `(-1)^sgn * num/den` to binary32; an exactly
zero numerator yields the zero of sign `sgn`. -/
def roundRat (sgn : Bool) (num den : Nat) : F32 :=
  if num = 0 then .fin sgn 0 (-149) else roundPos num den sgn

/-- Round the rational `n / den` to binary32 (sign taken from `n`). -/
def roundInt (n : Int) (den : Nat) : F32 :=
  if n < 0 then roundRat true n.natAbs den else roundRat false n.natAbs den

/-- Scaled integer representation of a finite value: `(-1)^sgn * m * 2^(e+149)`,
so that a canonical finite float with encoding `(sgn, m, e)` has value
`intRep sgn m e / 2^149`. -/
def intRep (sgn : Bool) (m : Nat) (e : Int) : Int :=
  (if sgn then -(m : Int) else (m : Int)) * 2 ^ (e + 149).toNat

/-- Newton iteration step loop for the integer square root, with fuel. -/
def isqrtAux (n : Nat) : Nat → Nat → Nat
  | 0, guess => guess
  | fuel + 1, guess =>
    let next := (guess + n / guess) / 2
    if next < guess then isqrtAux n fuel next else guess

/-- Integer square root `⌊√n⌋` (Newton iteration with ample fuel for every
operand size that arises here, mirroring the standard integer sqrt). -/
def isqrt (n : Nat) : Nat :=
  if n ≤ 1 then n else isqrtAux n 300 (n / 2)

/-- The least exponent `e ≥ -149` with `√(num/den) < 2^(e+24)`. -/
def findSqrtExpAux (num den : Nat) : Nat → Int → Int
  | 0, e => e
  | fuel + 1, e =>
    if ltPow2 num den (2 * (e + 24)) then e else findSqrtExpAux num den fuel (e + 1)

/-- Exponent slot of the square root of the positive rational `num/den`. -/
def findSqrtExp (num den : Nat) : Int :=
  findSqrtExpAux num den 500 (-149)

/-- Correctly rounded (to nearest, ties to even) square root of the positive
rational `num/den`.  Uses `⌊√(q/2^(2e))⌋ = isqrt ⌊q/2^(2e)⌋` and decides the
rounding direction by comparing `4q` with `(2 m0 + 1)^2 2^(2e)` exactly. -/
def sqrtPos (num den : Nat) : F32 :=
  let e := findSqrtExp num den
  let m0 := isqrt (floorShift num den (2 * e))
  let l := 4 * num * 2 ^ shiftE
  let r := (2 * m0 + 1) ^ 2 * (den * 2 ^ (2 * e + shiftE).toNat)
  let m := if r < l then m0 + 1 else if l < r then m0
    else if m0 % 2 = 0 then m0 else m0 + 1
  mkFin false m e

/-- IEEE-754 negation (also used to implement subtraction). -/
def neg : F32 → F32
  | .nan => .nan
  | .inf => .ninf
  | .ninf => .inf
  | .fin s m e => .fin (!s) m e

/-- IEEE-754 binary32 addition (round to nearest, ties to even).  The exact
sum of two finite values with exponents `≥ -149` is an integer multiple of
`2^(-149)`, so it is rounded as `(n1+n2)/2^149`.  When both operands are
zeros the result is `-0` only if both are `-0`; an exactly cancelling sum of
nonzero operands is `+0`, as `roundInt 0` yields `+0`. -/
def add : F32 → F32 → F32
  | .nan, _ => .nan
  | _, .nan => .nan
  | .inf, .ninf => .nan
  | .ninf, .inf => .nan
  | .inf, _ => .inf
  | _, .inf => .inf
  | .ninf, _ => .ninf
  | _, .ninf => .ninf
  | .fin s1 m1 e1, .fin s2 m2 e2 =>
    if m1 = 0 ∧ m2 = 0 then .fin (s1 && s2) 0 (-149)
    else roundInt (intRep s1 m1 e1 + intRep s2 m2 e2) (2 ^ 149)

/-- IEEE-754 binary32 subtraction, `a - b = a + (-b)`. -/
def sub (a b : F32) : F32 := add a (neg b)

/-- IEEE-754 binary32 multiplication.  The exact product of two finite values
is a multiple of `2^(-298)`; a zero product carries the XOR of the signs. -/
def mul : F32 → F32 → F32
  | .nan, _ => .nan
  | _, .nan => .nan
  | .inf, .inf => .inf
  | .inf, .ninf => .ninf
  | .ninf, .inf => .ninf
  | .ninf, .ninf => .inf
  | .inf, .fin s m _ => if m = 0 then .nan else if s then .ninf else .inf
  | .fin s m _, .inf => if m = 0 then .nan else if s then .ninf else .inf
  | .ninf, .fin s m _ => if m = 0 then .nan else if s then .inf else .ninf
  | .fin s m _, .ninf => if m = 0 then .nan else if s then .inf else .ninf
  | .fin s1 m1 e1, .fin s2 m2 e2 =>
    if m1 = 0 ∨ m2 = 0 then .fin (xor s1 s2) 0 (-149)
    else roundInt (intRep s1 m1 e1 * intRep s2 m2 e2) (2 ^ 298)

/-- IEEE-754 binary32 division.  `0/0` and `±∞/±∞` are NaN, division of a
nonzero finite value by zero is a signed infinity, and the finite/finite case
rounds the exact rational quotient. -/
def div : F32 → F32 → F32
  | .nan, _ => .nan
  | _, .nan => .nan
  | .inf, .inf => .nan
  | .inf, .ninf => .nan
  | .ninf, .inf => .nan
  | .ninf, .ninf => .nan
  | .inf, .fin s _ _ => if s then .ninf else .inf
  | .ninf, .fin s _ _ => if s then .inf else .ninf
  | .fin s _ _, .inf => .fin s 0 (-149)
  | .fin s _ _, .ninf => .fin (!s) 0 (-149)
  | .fin s1 m1 e1, .fin s2 m2 e2 =>
    if m2 = 0 then
      (if m1 = 0 then .nan else (if xor s1 s2 then .ninf else .inf))
    else if m1 = 0 then .fin (xor s1 s2) 0 (-149)
    else roundRat (xor s1 s2) (m1 * 2 ^ (e1 + 149).toNat) (m2 * 2 ^ (e2 + 149).toNat)

/-- IEEE-754 binary32 square root: `√NaN = NaN`, `√(-x) = NaN` for `x > 0`,
`√(±0) = ±0`, `√(+∞) = +∞`, and the finite positive case is correctly
rounded. -/
def sqrt : F32 → F32
  | .nan => .nan
  | .inf => .inf
  | .ninf => .nan
  | .fin s m e =>
    if m = 0 then .fin s 0 (-149)
    else if s then .nan
    else sqrtPos (m * 2 ^ (e + 149).toNat) (2 ^ 149)

/-- IEEE-754 `==` (the `PartialEq` of `f32`): NaN compares false against
everything, `-0 == +0`, and finite values compare by value. -/
def beq : F32 → F32 → Bool
  | .nan, _ => false
  | _, .nan => false
  | .inf, .inf => true
  | .ninf, .ninf => true
  | .fin s1 m1 e1, .fin s2 m2 e2 => decide (intRep s1 m1 e1 = intRep s2 m2 e2)
  | _, _ => false

/-- IEEE-754 `<=` (the `PartialOrd` of `f32`): false whenever an operand is
NaN. -/
def le : F32 → F32 → Bool
  | .nan, _ => false
  | _, .nan => false
  | .ninf, _ => true
  | _, .ninf => false
  | _, .inf => true
  | .inf, _ => false
  | .fin s1 m1 e1, .fin s2 m2 e2 => decide (intRep s1 m1 e1 ≤ intRep s2 m2 e2)

/-- IEEE-754 `<`: false whenever an operand is NaN. -/
def lt : F32 → F32 → Bool
  | .nan, _ => false
  | _, .nan => false
  | .ninf, .ninf => false
  | .ninf, _ => true
  | _, .ninf => false
  | .inf, _ => false
  | _, .inf => true
  | .fin s1 m1 e1, .fin s2 m2 e2 => decide (intRep s1 m1 e1 < intRep s2 m2 e2)

/-- Rust's `f32::clamp(min, max)`: `if self < min { self = min }` then
`if self > max { self = max }`; NaN propagates (both comparisons false). -/
def clamp (x mn mx : F32) : F32 :=
  let x1 := if lt x mn then mn else x
  if lt mx x1 then mx else x1

/-- The `f32` value of the decimal literal `(-1)^sgn * num / den` (Rust
rounds decimal literals to the nearest `f32`, ties to even). -/
def ofLit (sgn : Bool) (num den : Nat) : F32 := roundRat sgn num den

/-- The `f32` literal `0.0`. -/
def lit0 : F32 := ofLit false 0 1

/-- The `f32` literal `1.0`. -/
def lit1 : F32 := ofLit false 1 1

/-- The `f32` literal `-1.0`. -/
def litm1 : F32 := ofLit true 1 1

/-- The `f32` literal `2.0`. -/
def lit2 : F32 := ofLit false 2 1

/-- The `f32` literal `0.5`. -/
def litHalf : F32 := ofLit false 1 2

/-- The `f32` value of the literals `1E-05` and `0.00001` (the same value). -/
def litEps : F32 := ofLit false 1 100000

/-- True exactly on the finite values (neither NaN nor an infinity). -/
def isFinite : F32 → Bool
  | .fin _ _ _ => true
  | _ => false

/-- True exactly on the two zeros. -/
def isZero : F32 → Bool
  | .fin _ m _ => decide (m = 0)
  | _ => false

end F32

/-- The `Vector2` struct of `src/algorithms/vector2.rs`: two `f32` fields. -/
structure Vector2 where
  x : F32
  y : F32
deriving DecidableEq

namespace Vector2

/-- `Vector2::new(x, y)`. -/
def new (x y : F32) : Vector2 := ⟨x, y⟩

/-- `Vector2::zero()`. -/
def zero : Vector2 := ⟨F32.lit0, F32.lit0⟩

/-- `Vector2::one()`. -/
def one : Vector2 := ⟨F32.lit1, F32.lit1⟩

/-- `Vector2::up()`. -/
def up : Vector2 := ⟨F32.lit0, F32.lit1⟩

/-- `Vector2::down()`. -/
def down : Vector2 := ⟨F32.lit0, F32.litm1⟩

/-- `Vector2::left()`. -/
def left : Vector2 := ⟨F32.litm1, F32.lit0⟩

/-- `Vector2::right()`. -/
def right : Vector2 := ⟨F32.lit1, F32.lit0⟩

/-- `Vector2::positive_infinity()`. -/
def positive_infinity : Vector2 := ⟨F32.inf, F32.inf⟩

/-- `Vector2::negative_infinity()`. -/
def negative_infinity : Vector2 := ⟨F32.ninf, F32.ninf⟩

/-- `Vector2::sqr_magnitude()`: `self.x * self.x + self.y * self.y`. -/
def sqr_magnitude (v : Vector2) : F32 :=
  F32.add (F32.mul v.x v.x) (F32.mul v.y v.y)

/-- `Vector2::magnitude()`: `self.sqr_magnitude().sqrt()`. -/
def magnitude (v : Vector2) : F32 := F32.sqrt (sqr_magnitude v)

/-- `Vector2::set(x, y)` (the mutation is modelled by returning the new
value of `self`). -/
def set (_ : Vector2) (x y : F32) : Vector2 := ⟨x, y⟩

/-- `impl Add for Vector2`: component-wise sum. -/
def add (a b : Vector2) : Vector2 := new (F32.add a.x b.x) (F32.add a.y b.y)

/-- `impl Sub for Vector2`: component-wise difference. -/
def sub (a b : Vector2) : Vector2 := new (F32.sub a.x b.x) (F32.sub a.y b.y)

/-- `impl Mul for Vector2`: component-wise product. -/
def mul (a b : Vector2) : Vector2 := new (F32.mul a.x b.x) (F32.mul a.y b.y)

/-- `impl Mul<f32> for Vector2`: `new(self.x * other, self.y * other)`. -/
def mulF32 (a : Vector2) (s : F32) : Vector2 := new (F32.mul a.x s) (F32.mul a.y s)

/-- `impl Mul<Vector2> for f32`: `new(self * other.x, self * other.y)`. -/
def f32Mul (s : F32) (a : Vector2) : Vector2 := new (F32.mul s a.x) (F32.mul s a.y)

/-- `impl MulAssign<f32> for Vector2`: `self.x *= rhs; self.y *= rhs`. -/
def mulAssignF32 (a : Vector2) (s : F32) : Vector2 := ⟨F32.mul a.x s, F32.mul a.y s⟩

/-- `impl MulAssign for Vector2`: `self.x *= scale.x; self.y *= scale.y`. -/
def mulAssign (a scl : Vector2) : Vector2 := ⟨F32.mul a.x scl.x, F32.mul a.y scl.y⟩

/-- `impl Div for Vector2`: component-wise quotient. -/
def div (a b : Vector2) : Vector2 := new (F32.div a.x b.x) (F32.div a.y b.y)

/-- `impl Div<f32> for Vector2`: `new(self.x / other, self.y / other)`. -/
def divF32 (a : Vector2) (s : F32) : Vector2 := new (F32.div a.x s) (F32.div a.y s)

/-- `impl DivAssign<f32> for Vector2`: `self.x /= rhs; self.y /= rhs`. -/
def divAssignF32 (a : Vector2) (s : F32) : Vector2 := ⟨F32.div a.x s, F32.div a.y s⟩

/-- `Vector2::lerp(a, b, t)`: clamps `t` to `[0, 1]`, then
`new(a.x + (b.x - a.x) * t, a.y + (b.y - a.y) * t)`. -/
def lerp (a b : Vector2) (t : F32) : Vector2 :=
  let t1 := F32.clamp t F32.lit0 F32.lit1
  new (F32.add a.x (F32.mul (F32.sub b.x a.x) t1))
      (F32.add a.y (F32.mul (F32.sub b.y a.y) t1))

/-- `Vector2::lerp_unclamped(a, b, t)`: the same formula without clamping. -/
def lerp_unclamped (a b : Vector2) (t : F32) : Vector2 :=
  new (F32.add a.x (F32.mul (F32.sub b.x a.x) t))
      (F32.add a.y (F32.mul (F32.sub b.y a.y) t))

/-- `Vector2::move_towards(current, target, max_distance_delta)`. -/
def move_towards (current target : Vector2) (max_distance_delta : F32) : Vector2 :=
  let vector := sub target current
  let num := magnitude vector
  if F32.le num max_distance_delta || F32.beq num F32.lit0 then target
  else add current (mulF32 (divF32 vector num) max_distance_delta)

/-- `Vector2::scale(scale)`: `*self *= scale` (the `MulAssign` for vectors). -/
def scale (v scl : Vector2) : Vector2 := mulAssign v scl

/-- `Vector2::normalize()`: if `self.magnitude() > 1E-05` then
`*self /= num` else `*self = zero()`. -/
def normalize (v : Vector2) : Vector2 :=
  let num := magnitude v
  if F32.lt F32.litEps num then divAssignF32 v num else zero

/-- `impl Index<usize> for Vector2`: indices `0` and `1` read the fields,
any other index panics (modelled by `none`). -/
def index (v : Vector2) : Nat → Option F32
  | 0 => some v.x
  | 1 => some v.y
  | _ => none

/-- `impl IndexMut<usize> for Vector2`: writing through index `0`/`1`
updates the field, any other index panics (modelled by `none`). -/
def index_mut (v : Vector2) (i : Nat) (w : F32) : Option Vector2 :=
  match i with
  | 0 => some ⟨w, v.y⟩
  | 1 => some ⟨v.x, w⟩
  | _ => none

/-- The derived `PartialEq for Vector2`: `self.x == other.x && self.y == other.y`
with the `f32` comparison (so NaN components compare unequal). -/
def beq (a b : Vector2) : Bool := F32.beq a.x b.x && F32.beq a.y b.y

/-- `impl fmt::Display for Vector2`: `write!(f, "({}, {})", self.x, self.y)`.
The default `{}` formatting of an `f32` field is abstracted as the function
`fmtF`; the template, the field order and the separator are the source's. -/
def fmt (fmtF : F32 → String) (v : Vector2) : String :=
  "(" ++ fmtF v.x ++ ", " ++ fmtF v.y ++ ")"

end Vector2

/-!
Basic facts about the `F32` operations.
-/

namespace F32

/-- Canonical finite encodings: the significand fits in 24 bits, the exponent
is in the binary32 range, and the value is either normal or has the minimal
exponent.  Every value produced by the rounding functions satisfies this;
NaN and the infinities are canonical by convention. -/
def canonicalB : F32 → Bool
  | .fin _ m e => decide (m < 2 ^ 24 ∧ -149 ≤ e ∧ e ≤ 104 ∧ (2 ^ 23 ≤ m ∨ e = -149))
  | _ => true

/-- The significand-24-bit exactness test used for the amended lerp claim:
`subIsExact x y` holds when `x` and `y` are finite and the rounded difference
`x - y` is finite and equals the exact difference of the values. -/
def subIsExact (x y : F32) : Bool :=
  match x, y with
  | .fin s1 m1 e1, .fin s2 m2 e2 =>
    match sub (.fin s1 m1 e1) (.fin s2 m2 e2) with
    | .fin s m e => decide (intRep s m e = intRep s1 m1 e1 - intRep s2 m2 e2)
    | _ => false
  | _, _ => false

theorem add_comm' (a b : F32) : add a b = add b a := by
  cases a <;> cases b <;> simp only [add]
  case fin.fin s1 m1 e1 s2 m2 e2 =>
    rw [Int.add_comm, Bool.and_comm]
    exact if_congr ⟨fun h => ⟨h.2, h.1⟩, fun h => ⟨h.2, h.1⟩⟩ rfl rfl

theorem mul_comm' (a b : F32) : mul a b = mul b a := by
  cases a <;> cases b <;> simp only [mul]
  case fin.fin s1 m1 e1 s2 m2 e2 =>
    rw [Int.mul_comm, Bool.xor_comm]
    exact if_congr ⟨fun h => h.elim Or.inr Or.inl, fun h => h.elim Or.inr Or.inl⟩ rfl rfl

theorem beq_refl (x : F32) (h : x ≠ nan) : beq x x = true := by
  cases x with
  | nan => exact absurd rfl h
  | inf => rfl
  | ninf => rfl
  | fin s m e => simp [beq]

theorem beq_nan_left (b : F32) : beq .nan b = false := by cases b <;> rfl

theorem le_nan_left (b : F32) : le .nan b = false := by cases b <;> rfl

theorem div_nan_right (a : F32) : div a .nan = .nan := by cases a <;> rfl

theorem mul_nan_left (b : F32) : mul .nan b = .nan := by cases b <;> rfl

theorem add_nan_right (a : F32) : add a .nan = .nan := by cases a <;> rfl

theorem intRep_zero (s : Bool) (e : Int) : intRep s 0 e = 0 := by
  cases s <;> simp [intRep]

theorem sub_self_fin (s : Bool) (m : Nat) (e : Int) :
    sub (.fin s m e) (.fin s m e) = .fin false 0 (-149) := by
  by_cases hm : m = 0
  · subst hm
    simp [sub, neg, add, Bool.and_not_self]
  · have hrep : intRep s m e + intRep (!s) m e = 0 := by
      cases s <;> simp [intRep]
    simp [sub, neg, add, hm, hrep, roundInt, roundRat]

theorem findExpAux_eq (num den : Nat) (E : Int)
    (hE : ltPow2 num den (E + 24) = true)
    (hmin : ∀ k : Int, -149 ≤ k → k < E → ltPow2 num den (k + 24) = false) :
    ∀ (fuel : Nat) (e : Int), -149 ≤ e → e ≤ E → E ≤ e + (fuel : Int) →
      findExpAux num den fuel e = E := by
  intro fuel
  induction fuel with
  | zero =>
    intro e _ h1 h2
    have he : e = E := by omega
    simp [findExpAux, he]
  | succ n ih =>
    intro e h0 h1 h2
    by_cases he : e = E
    · subst he
      simp [findExpAux, hE]
    · have hf := hmin e h0 (by omega)
      simp [findExpAux, hf]
      exact ih (e + 1) (by omega) (by omega) (by omega)

theorem findExp_eq (num den : Nat) (E : Int)
    (hE : ltPow2 num den (E + 24) = true)
    (hmin : ∀ k : Int, -149 ≤ k → k < E → ltPow2 num den (k + 24) = false)
    (hlo : -149 ≤ E) (hhi : E ≤ 104) :
    findExp num den = E :=
  findExpAux_eq num den E hE hmin 500 (-149) (by omega) hlo (by omega)

theorem roundRat_rep (sgn : Bool) (m a b : Nat) (e : Int)
    (he : e = (a : Int) - b)
    (hm0 : m ≠ 0) (hm : m < 2 ^ 24) (hlo : -149 ≤ e) (hhi : e ≤ 104)
    (hnorm : 2 ^ 23 ≤ m ∨ e = -149) :
    roundRat sgn (m * 2 ^ a) (2 ^ b) = .fin sgn m e := by
  have hble : b ≤ a + 300 := by omega
  have hpow : (2 : Nat) ^ b * 2 ^ (e + 300).toNat = 2 ^ (a + 300) := by
    rw [show (e + 300).toNat = a + 300 - b from by omega, ← pow_add,
      Nat.add_sub_cancel' hble]
  have hE : ltPow2 (m * 2 ^ a) (2 ^ b) (e + 24) = true := by
    simp only [ltPow2, shiftE, Nat.cast_ofNat, decide_eq_true_eq]
    rw [show (e + 24 + 300).toNat = a + 324 - b from by omega]
    rw [show (2:Nat) ^ b * 2 ^ (a + 324 - b) = 2 ^ (a + 324) from by
      rw [← pow_add, Nat.add_sub_cancel' (by omega)]]
    rw [mul_assoc, ← pow_add]
    calc m * 2 ^ (a + 300) < 2 ^ 24 * 2 ^ (a + 300) :=
          (mul_lt_mul_right (by positivity)).mpr hm
      _ = 2 ^ (a + 324) := by rw [← pow_add]; ring_nf
  have hmin : ∀ k : Int, -149 ≤ k → k < e → ltPow2 (m * 2 ^ a) (2 ^ b) (k + 24) = false := by
    intro k hk hke
    rcases hnorm with hnorm | hnorm
    · simp only [ltPow2, shiftE, Nat.cast_ofNat, decide_eq_false_iff_not, not_lt]
      calc (2 : Nat) ^ b * 2 ^ (k + 24 + 300).toNat
          = 2 ^ (b + (k + 24 + 300).toNat) := by rw [pow_add]
        _ ≤ 2 ^ (a + 323) := Nat.pow_le_pow_right (by norm_num) (by omega)
        _ = 2 ^ 23 * 2 ^ (a + 300) := by rw [← pow_add]; ring_nf
        _ ≤ m * 2 ^ (a + 300) := Nat.mul_le_mul_right _ hnorm
        _ = m * 2 ^ a * 2 ^ 300 := by rw [mul_assoc, ← pow_add]
    · omega
  have hfind : findExp (m * 2 ^ a) (2 ^ b) = e := findExp_eq _ _ e hE hmin hlo hhi
  have hfloor : floorShift (m * 2 ^ a) (2 ^ b) e = m := by
    simp only [floorShift, shiftE, Nat.cast_ofNat, hpow]
    rw [mul_assoc, ← pow_add]
    exact Nat.mul_div_cancel m (by positivity)
  have hnum0 : m * 2 ^ a ≠ 0 := by positivity
  have hlr : 2 * (m * 2 ^ a) * 2 ^ 300 < (2 * m + 1) * 2 ^ (a + 300) := by
    calc 2 * (m * 2 ^ a) * 2 ^ 300 = 2 * m * 2 ^ (a + 300) := by
          rw [pow_add]; ring
      _ < (2 * m + 1) * 2 ^ (a + 300) := (mul_lt_mul_right (by positivity)).mpr (by omega)
  simp only [roundRat, hnum0, if_false, roundPos, shiftE, Nat.cast_ofNat, hfind, hfloor, hpow]
  rw [if_neg (Nat.lt_asymm hlr), if_pos hlr]
  simp only [mkFin, hm0, if_false]
  rw [if_neg (Nat.ne_of_lt hm), if_neg (by omega)]

theorem roundInt_pow_rep (sgn : Bool) (m a b : Nat) (e : Int)
    (he : e = (a : Int) - b)
    (hm0 : m ≠ 0) (hm : m < 2 ^ 24) (hlo : -149 ≤ e) (hhi : e ≤ 104)
    (hnorm : 2 ^ 23 ≤ m ∨ e = -149) :
    roundInt ((if sgn then -(m : Int) else (m : Int)) * 2 ^ a) (2 ^ b) = .fin sgn m e := by
  have hmpos : (0 : Int) < (m : Int) * 2 ^ a := by
    have : 0 < m := Nat.pos_of_ne_zero hm0
    positivity
  have habs : ((m : Int) * 2 ^ a).natAbs = m * 2 ^ a := by
    simp [Int.natAbs_mul, Int.natAbs_pow]
  cases sgn with
  | false =>
    show roundInt ((m : Int) * 2 ^ a) (2 ^ b) = .fin false m e
    simp only [roundInt]
    rw [if_neg (not_lt.mpr (le_of_lt hmpos)), habs]
    exact roundRat_rep false m a b e he hm0 hm hlo hhi hnorm
  | true =>
    show roundInt (-(m : Int) * 2 ^ a) (2 ^ b) = .fin true m e
    have hneg : -((m : Int) * 2 ^ a) < 0 := by omega
    simp only [roundInt, neg_mul]
    rw [if_pos hneg, Int.natAbs_neg, habs]
    exact roundRat_rep true m a b e he hm0 hm hlo hhi hnorm

theorem roundInt_rep (sgn : Bool) (m : Nat) (e : Int)
    (hm0 : m ≠ 0) (hm : m < 2 ^ 24) (hlo : -149 ≤ e) (hhi : e ≤ 104)
    (hnorm : 2 ^ 23 ≤ m ∨ e = -149) :
    roundInt (intRep sgn m e) (2 ^ 149) = .fin sgn m e := by
  have he : e = ((e + 149).toNat : Int) - (149 : Nat) := by omega
  exact roundInt_pow_rep sgn m (e + 149).toNat 149 e he hm0 hm hlo hhi hnorm

theorem roundRat_self (N : Nat) (hN : N ≠ 0) :
    roundRat false N N = .fin false (2 ^ 23) (-23) := by
  have hNpos : 0 < N := Nat.pos_of_ne_zero hN
  have hE : ltPow2 N N (-23 + 24) = true := by
    simp only [ltPow2, shiftE, Nat.cast_ofNat, decide_eq_true_eq]
    rw [show ((-23 : Int) + 24 + 300).toNat = 301 from by omega]
    refine (mul_lt_mul_left hNpos).mpr ?_
    rw [show (301 : Nat) = 300 + 1 from rfl]
    exact Nat.pow_lt_pow_succ (by norm_num)
  have hmin : ∀ k : Int, -149 ≤ k → k < -23 → ltPow2 N N (k + 24) = false := by
    intro k hk hke
    simp only [ltPow2, shiftE, Nat.cast_ofNat, decide_eq_false_iff_not, not_lt]
    exact Nat.mul_le_mul_left N (Nat.pow_le_pow_right (by norm_num) (by omega))
  have hfind : findExp N N = -23 := findExp_eq _ _ (-23) hE hmin (by omega) (by omega)
  have hfloor : floorShift N N (-23) = 2 ^ 23 := by
    simp only [floorShift, shiftE, Nat.cast_ofNat]
    rw [show ((-23 : Int) + 300).toNat = 277 from by omega,
      show N * 2 ^ 300 = N * 2 ^ 277 * 2 ^ 23 from by rw [mul_assoc, ← pow_add]]
    exact Nat.mul_div_cancel_left _ (by positivity)
  have hlr : 2 * N * 2 ^ 300 < (2 * 2 ^ 23 + 1) * (N * 2 ^ 277) := by
    calc 2 * N * 2 ^ 300 = 2 ^ 24 * (N * 2 ^ 277) := by ring_nf
      _ < (2 * 2 ^ 23 + 1) * (N * 2 ^ 277) := by
          refine (mul_lt_mul_right (by positivity)).mpr (by norm_num)
  simp only [roundRat, hN, if_false, roundPos, shiftE, Nat.cast_ofNat, hfind, hfloor]
  rw [show ((-23 : Int) + 300).toNat = 277 from by omega]
  rw [if_neg (Nat.lt_asymm hlr), if_pos hlr]
  norm_num [mkFin]

set_option maxRecDepth 200000

theorem lit0_eq : lit0 = .fin false 0 (-149) := rfl

theorem lit1_eq : lit1 = .fin false (2 ^ 23) (-23) := by decide

theorem lit2_eq : lit2 = .fin false (2 ^ 23) (-22) := by decide

theorem mkFin_ne_nan (sgn : Bool) (m : Nat) (e : Int) : mkFin sgn m e ≠ .nan := by
  unfold mkFin
  repeat' split
  all_goals simp

theorem roundRat_ne_nan (sgn : Bool) (num den : Nat) : roundRat sgn num den ≠ .nan := by
  unfold roundRat roundPos
  split
  · simp
  · exact mkFin_ne_nan _ _ _

theorem roundInt_ne_nan (n : Int) (den : Nat) : roundInt n den ≠ .nan := by
  unfold roundInt
  split <;> exact roundRat_ne_nan _ _ _

theorem mul_fin_lit0 (s : Bool) (m : Nat) (e : Int) :
    mul (.fin s m e) lit0 = .fin s 0 (-149) := by
  rw [lit0_eq]
  simp [mul]

theorem canonicalB_fin {s : Bool} {m : Nat} {e : Int} (h : canonicalB (.fin s m e) = true) :
    m < 2 ^ 24 ∧ -149 ≤ e ∧ e ≤ 104 ∧ (2 ^ 23 ≤ m ∨ e = -149) := by
  simpa [canonicalB] using h

theorem beq_add_zero (x : F32) (sz : Bool) (hx : x ≠ .nan) (hc : canonicalB x = true) :
    beq (add x (.fin sz 0 (-149))) x = true := by
  cases x with
  | nan => exact absurd rfl hx
  | inf => rfl
  | ninf => rfl
  | fin s m e =>
    obtain ⟨hm, hlo, hhi, hnorm⟩ := canonicalB_fin hc
    by_cases hm0 : m = 0
    · subst hm0
      simp [add, beq, intRep_zero]
    · have hcond : ¬(m = 0 ∧ sz = sz) := fun h => hm0 h.1
      simp only [add, intRep_zero, add_zero]
      rw [if_neg (fun h => hm0 h.1)]
      rw [roundInt_rep s m e hm0 hm hlo hhi hnorm]
      exact beq_refl _ (fun h => F32.noConfusion h)

theorem intRep_lit1 : intRep false (2 ^ 23) (-23) = 2 ^ 149 := by decide

theorem mul_lit1 (x : F32) (hx : x ≠ .nan) (hc : canonicalB x = true) :
    mul x lit1 = x := by
  rw [lit1_eq]
  cases x with
  | nan => exact absurd rfl hx
  | inf => simp [mul]
  | ninf => simp [mul]
  | fin s m e =>
    obtain ⟨hm, hlo, hhi, hnorm⟩ := canonicalB_fin hc
    by_cases hm0 : m = 0
    · subst hm0
      have he : e = -149 := by
        rcases hnorm with h | h
        · exact absurd h (by norm_num)
        · exact h
      subst he
      simp [mul]
    · have hp : (2 : Nat) ^ 23 ≠ 0 := by norm_num
      simp only [mul, intRep_lit1]
      rw [if_neg (by push_neg; exact ⟨hm0, hp⟩)]
      have hsplit : intRep s m e * 2 ^ 149
          = (if s then -(m : Int) else (m : Int)) * 2 ^ ((e + 149).toNat + 149) := by
        simp only [intRep, pow_add]
        ring
      rw [hsplit, show ((2 : Nat) ^ 298 : Nat) = 2 ^ ((149 : Nat) + 149) from by norm_num]
      exact roundInt_pow_rep s m ((e + 149).toNat + 149) (149 + 149) e (by omega)
        hm0 hm hlo hhi hnorm

theorem div_self_fin (s : Bool) (m : Nat) (e : Int) (hm : m ≠ 0) :
    div (.fin s m e) (.fin s m e) = lit1 := by
  have hN : m * 2 ^ (e + 149).toNat ≠ 0 := by positivity
  have hx : xor s s = false := by cases s <;> rfl
  simp only [div]
  rw [if_neg hm, if_neg hm, hx, roundRat_self _ hN, lit1_eq]

theorem clamp_lit0 : clamp lit0 lit0 lit1 = lit0 := by decide

theorem clamp_lit1 : clamp lit1 lit0 lit1 = lit1 := by decide

theorem clamp_of_lt_zero (t : F32) (h : lt t lit0 = true) :
    clamp t lit0 lit1 = lit0 := by
  simp [clamp, h, show lt lit1 lit0 = false from by decide]

theorem clamp_of_one_lt (t : F32) (h : lt lit1 t = true) :
    clamp t lit0 lit1 = lit1 := by
  have hnot : lt t lit0 = false := by
    cases t with
    | nan => exact absurd h (by decide)
    | inf => rfl
    | ninf => exact absurd h (by decide)
    | fin s m e =>
      rw [lit1_eq] at h
      simp only [lt, intRep_lit1, decide_eq_true_eq] at h
      simp only [lt, lit0_eq, intRep_zero, decide_eq_false_iff_not, not_lt]
      have h149 : (0 : Int) < 2 ^ 149 := by positivity
      omega
  simp [clamp, hnot, h]

theorem lerp_zero_comp (ax dx : F32) (hax : ax ≠ .nan) (hca : canonicalB ax = true)
    (hd : isFinite dx = true) :
    beq (add ax (mul dx lit0)) ax = true := by
  cases dx with
  | nan => exact absurd hd (by simp [isFinite])
  | inf => exact absurd hd (by simp [isFinite])
  | ninf => exact absurd hd (by simp [isFinite])
  | fin s m e =>
    rw [mul_fin_lit0]
    exact beq_add_zero ax s hax hca

theorem lerp_one_comp (ax bx : F32)
    (hca : canonicalB ax = true) (hcb : canonicalB bx = true)
    (hcd : canonicalB (sub bx ax) = true)
    (hex : subIsExact bx ax = true) :
    beq (add ax (mul (sub bx ax) lit1)) bx = true := by
  cases ax with
  | nan => exact absurd hex (by simp [subIsExact])
  | inf => exact absurd hex (by cases bx <;> simp [subIsExact])
  | ninf => exact absurd hex (by cases bx <;> simp [subIsExact])
  | fin s1 m1 e1 =>
    cases bx with
    | nan => exact absurd hex (by simp [subIsExact])
    | inf => exact absurd hex (by simp [subIsExact])
    | ninf => exact absurd hex (by simp [subIsExact])
    | fin s2 m2 e2 =>
      obtain ⟨hm1, hlo1, hhi1, hnorm1⟩ := canonicalB_fin hca
      obtain ⟨hm2, hlo2, hhi2, hnorm2⟩ := canonicalB_fin hcb
      rcases hsub : sub (.fin s2 m2 e2) (.fin s1 m1 e1) with _ | _ | _ | ⟨sd, md, ed⟩
      · rw [subIsExact, hsub] at hex; exact absurd hex (by simp)
      · rw [subIsExact, hsub] at hex; exact absurd hex (by simp)
      · rw [subIsExact, hsub] at hex; exact absurd hex (by simp)
      · rw [subIsExact, hsub] at hex
        have hrep : intRep sd md ed = intRep s2 m2 e2 - intRep s1 m1 e1 := by
          simpa using hex
        rw [hsub] at hcd
        obtain ⟨hmd, hlod, hhid, hnormd⟩ := canonicalB_fin hcd
        rw [mul_lit1 _ (fun h => F32.noConfusion h) hcd]
        by_cases hz : m1 = 0 ∧ md = 0
        · obtain ⟨hz1, hzd⟩ := hz
          subst hz1; subst hzd
          have h2 : intRep s2 m2 e2 = 0 := by
            have := intRep_zero sd ed
            have := intRep_zero s1 e1
            omega
          simp only [add, beq]
          rw [if_pos ⟨trivial, trivial⟩]
          simp [beq, intRep_zero, h2]
        · have hsum : intRep s1 m1 e1 + intRep sd md ed = intRep s2 m2 e2 := by omega
          simp only [add]
          rw [if_neg hz, hsum]
          by_cases hz2 : m2 = 0
          · subst hz2
            have h0 : intRep s2 0 e2 = 0 := intRep_zero s2 e2
            rw [h0]
            simp [roundInt, roundRat, beq, intRep_zero]
          · rw [roundInt_rep s2 m2 e2 hz2 hm2 hlo2 hhi2 hnorm2]
            exact beq_refl _ (fun h => F32.noConfusion h)

end F32

theorem Vector2.beq_refl' (u : Vector2) (hx : u.x ≠ F32.nan) (hy : u.y ≠ F32.nan) :
    Vector2.beq u u = true := by
  simp [Vector2.beq, F32.beq_refl _ hx, F32.beq_refl _ hy]

set_option maxRecDepth 1000000

/-- Claim C1: `normalize()` divides both components in place by the magnitude
when `magnitude() > 1e-5`, and otherwise (magnitude at most 1e-5, including
the zero vector) sets the vector to `(0, 0)`.  In particular, normalizing
`(1, 1)` yields `(sqrt 0.5, sqrt 0.5)` and normalizing `(0, 0.00001)` yields
`(0, 0)`. -/
theorem claim_C1_normalize :
    (∀ v : Vector2, F32.lt F32.litEps (Vector2.magnitude v) = true →
      Vector2.normalize v = Vector2.divAssignF32 v (Vector2.magnitude v)) ∧
    (∀ v : Vector2, F32.lt F32.litEps (Vector2.magnitude v) = false →
      Vector2.normalize v = Vector2.zero) ∧
    Vector2.normalize (Vector2.new F32.lit1 F32.lit1)
      = Vector2.new (F32.sqrt F32.litHalf) (F32.sqrt F32.litHalf) ∧
    Vector2.normalize (Vector2.new F32.lit0 F32.litEps) = Vector2.zero := by
  refine ⟨?_, ?_, by decide, by decide⟩
  · intro v h
    simp [Vector2.normalize, h]
  · intro v h
    simp [Vector2.normalize, h]

/-- Witness for claim C1 at the concrete inputs `(1, 1)` (magnitude above the
threshold) and `(0, 0)` (magnitude below the threshold). -/
theorem claim_C1_witness :
    Vector2.normalize (Vector2.new F32.lit1 F32.lit1)
      = Vector2.divAssignF32 (Vector2.new F32.lit1 F32.lit1)
          (Vector2.magnitude (Vector2.new F32.lit1 F32.lit1)) ∧
    Vector2.normalize (Vector2.new F32.lit0 F32.lit0) = Vector2.zero :=
  ⟨claim_C1_normalize.1 _ (by decide), claim_C1_normalize.2.1 _ (by decide)⟩

/-- Claim C2: `move_towards(current, target, max_distance_delta)` computes
`delta = target - current`, `dist = |delta|`; if `dist <= max_distance_delta`
or `dist == 0` it returns `target` exactly, else it returns
`current + delta/dist * max_distance_delta`.  In particular
`move_towards((0,0),(1,1),0.5)` yields `(0.5/sqrt 2, 0.5/sqrt 2)`, with step 2
it yields exactly `(1,1)`, and with step 0 it yields `(0,0)`. -/
theorem claim_C2_move_towards :
    (∀ (c t : Vector2) (d : F32),
      (F32.le (Vector2.magnitude (Vector2.sub t c)) d
        || F32.beq (Vector2.magnitude (Vector2.sub t c)) F32.lit0) = true →
      Vector2.move_towards c t d = t) ∧
    (∀ (c t : Vector2) (d : F32),
      (F32.le (Vector2.magnitude (Vector2.sub t c)) d
        || F32.beq (Vector2.magnitude (Vector2.sub t c)) F32.lit0) = false →
      Vector2.move_towards c t d =
        Vector2.add c (Vector2.mulF32
          (Vector2.divF32 (Vector2.sub t c) (Vector2.magnitude (Vector2.sub t c))) d)) ∧
    Vector2.move_towards Vector2.zero Vector2.one F32.litHalf
      = Vector2.new (F32.div F32.litHalf (F32.sqrt F32.lit2))
          (F32.div F32.litHalf (F32.sqrt F32.lit2)) ∧
    Vector2.move_towards Vector2.zero Vector2.one F32.lit2 = Vector2.one ∧
    Vector2.move_towards Vector2.zero Vector2.one F32.lit0 = Vector2.zero := by
  refine ⟨?_, ?_, by decide, by decide, by decide⟩
  · intro c t d h
    simp [Vector2.move_towards, h]
  · intro c t d h
    simp [Vector2.move_towards, h]

/-- Witness for claim C2: the snap branch at step 2 and the stepping branch at
step 0.5, from `(0,0)` towards `(1,1)`. -/
theorem claim_C2_witness :
    Vector2.move_towards Vector2.zero Vector2.one F32.lit2 = Vector2.one ∧
    Vector2.move_towards Vector2.zero Vector2.one F32.litHalf =
      Vector2.add Vector2.zero (Vector2.mulF32
        (Vector2.divF32 (Vector2.sub Vector2.one Vector2.zero)
          (Vector2.magnitude (Vector2.sub Vector2.one Vector2.zero))) F32.litHalf) :=
  ⟨claim_C2_move_towards.1 _ _ _ (by decide), claim_C2_move_towards.2.1 _ _ _ (by decide)⟩

/-- Claim C3: index 0 reads/writes the `x` field and index 1 reads/writes the
`y` field; every other index makes both the read and the write operation
panic (modelled by `none`) instead of returning a value or a default. -/
theorem claim_C3_index :
    ∀ (v : Vector2) (i : Nat) (w : F32),
      Vector2.index v 0 = some v.x ∧ Vector2.index v 1 = some v.y ∧
      Vector2.index_mut v 0 w = some (Vector2.new w v.y) ∧
      Vector2.index_mut v 1 w = some (Vector2.new v.x w) ∧
      (i ≠ 0 → i ≠ 1 → Vector2.index v i = none ∧ Vector2.index_mut v i w = none) := by
  intro v i w
  refine ⟨rfl, rfl, rfl, rfl, ?_⟩
  intro h0 h1
  match i with
  | 0 => exact absurd rfl h0
  | 1 => exact absurd rfl h1
  | n + 2 => exact ⟨rfl, rfl⟩

/-- Witness for claim C3 at the out-of-bounds index 2. -/
theorem claim_C3_witness :
    Vector2.index Vector2.zero 2 = none ∧
    Vector2.index_mut Vector2.zero 2 F32.lit1 = none :=
  (claim_C3_index Vector2.zero 2 F32.lit1).2.2.2.2 (by decide) (by decide)

/-- Claim C8: the mutating `scale(other)` is the in-place component-wise
product and agrees with the value produced by the vector-times-vector
multiplication operator. -/
theorem claim_C8_scale : ∀ v o : Vector2,
    Vector2.scale v o = Vector2.mul v o ∧
    Vector2.scale v o = Vector2.new (F32.mul v.x o.x) (F32.mul v.y o.y) :=
  fun _ _ => ⟨rfl, rfl⟩

/-- Claim C9: the Display rendering is exactly the string `"(x, y)"` built
from the two field values (in the order `x` then `y`, wrapped in parentheses
and separated by a comma and a space), each formatted by the default `f32`
formatter, which is abstracted as the parameter `f`. -/
theorem claim_C9_display : ∀ (f : F32 → String) (v : Vector2),
    Vector2.fmt f v = "(" ++ f v.x ++ ", " ++ f v.y ++ ")" ∧
    Vector2.fmt f (Vector2.new v.x v.y) = "(" ++ f v.x ++ ", " ++ f v.y ++ ")" :=
  fun _ _ => ⟨rfl, rfl⟩

/-- Claim C10: whenever the distance computed inside `move_towards` is NaN
(for example with both arguments `positive_infinity()`), both guard
comparisons are false, the non-snap branch runs, and the result is
`(NaN, NaN)` rather than `target`; the snap guarantee does not extend to
such inputs. -/
theorem claim_C10_nan :
    (∀ (c t : Vector2) (d : F32),
      Vector2.magnitude (Vector2.sub t c) = F32.nan →
      Vector2.move_towards c t d = Vector2.new F32.nan F32.nan ∧
      Vector2.beq (Vector2.move_towards c t d) t = false) ∧
    Vector2.magnitude (Vector2.sub Vector2.positive_infinity Vector2.positive_infinity)
      = F32.nan ∧
    Vector2.move_towards Vector2.positive_infinity Vector2.positive_infinity F32.lit1
      = Vector2.new F32.nan F32.nan := by
  refine ⟨?_, by decide, by decide⟩
  intro c t d h
  have hres : Vector2.move_towards c t d = Vector2.new F32.nan F32.nan := by
    simp [Vector2.move_towards, h, F32.le_nan_left, F32.beq_nan_left, Vector2.divF32,
      Vector2.mulF32, Vector2.add, Vector2.new, F32.div_nan_right, F32.mul_nan_left,
      F32.add_nan_right]
  refine ⟨hres, ?_⟩
  rw [hres]
  simp [Vector2.beq, Vector2.new, F32.beq_nan_left]

/-- Witness for claim C10 with both endpoints at `positive_infinity()`. -/
theorem claim_C10_witness :
    Vector2.move_towards Vector2.positive_infinity Vector2.positive_infinity F32.lit0
      = Vector2.new F32.nan F32.nan ∧
    Vector2.beq (Vector2.move_towards Vector2.positive_infinity Vector2.positive_infinity
      F32.lit0) Vector2.positive_infinity = false :=
  claim_C10_nan.1 Vector2.positive_infinity Vector2.positive_infinity F32.lit0 (by decide)

theorem F32.isFinite_fin {x : F32} (h : F32.isFinite x = true) :
    ∃ s m e, x = F32.fin s m e := by
  cases x with
  | nan => exact absurd h (by simp [F32.isFinite])
  | inf => exact absurd h (by simp [F32.isFinite])
  | ninf => exact absurd h (by simp [F32.isFinite])
  | fin s m e => exact ⟨s, m, e, rfl⟩

theorem F32.mul_lit2_ne_nan (x : F32) (hx : x ≠ F32.nan) :
    F32.mul F32.lit2 x ≠ F32.nan := by
  cases x with
  | nan => exact absurd rfl hx
  | inf => rw [F32.lit2_eq]; simp [F32.mul]
  | ninf => rw [F32.lit2_eq]; simp [F32.mul]
  | fin s m e =>
    rw [F32.lit2_eq]
    simp only [F32.mul]
    split
    · simp
    · exact F32.roundInt_ne_nan _ _

/-- Claim C5 (amended): `a + b` and `b + a` (resp. `a * b` and `b * a`) are
always the very same value; the `==` comparison between them returns `true`
whenever no component of the result is NaN, and `false` otherwise (since
NaN compares unequal to itself).  The original universally quantified `==`
form fails on inputs whose sum or product has a NaN component. -/
theorem claim_C5_comm : ∀ a b : Vector2,
    Vector2.add a b = Vector2.add b a ∧ Vector2.mul a b = Vector2.mul b a ∧
    ((Vector2.add a b).x ≠ F32.nan → (Vector2.add a b).y ≠ F32.nan →
      Vector2.beq (Vector2.add a b) (Vector2.add b a) = true) ∧
    ((Vector2.mul a b).x ≠ F32.nan → (Vector2.mul a b).y ≠ F32.nan →
      Vector2.beq (Vector2.mul a b) (Vector2.mul b a) = true) := by
  intro a b
  have hadd : Vector2.add a b = Vector2.add b a := by
    show Vector2.new _ _ = Vector2.new _ _
    rw [F32.add_comm' a.x b.x, F32.add_comm' a.y b.y]
  have hmul : Vector2.mul a b = Vector2.mul b a := by
    show Vector2.new _ _ = Vector2.new _ _
    rw [F32.mul_comm' a.x b.x, F32.mul_comm' a.y b.y]
  refine ⟨hadd, hmul, fun h1 h2 => ?_, fun h1 h2 => ?_⟩
  · rw [← hadd]; exact Vector2.beq_refl' _ h1 h2
  · rw [← hmul]; exact Vector2.beq_refl' _ h1 h2

/-- Counterexample to claim C5 as stated: at `a = (+inf, +inf)`,
`b = (-inf, -inf)` the sum has NaN components, so `a + b == b + a` is false. -/
theorem claim_C5_counterexample :
    Vector2.beq (Vector2.add Vector2.positive_infinity Vector2.negative_infinity)
      (Vector2.add Vector2.negative_infinity Vector2.positive_infinity) = false := by
  decide

/-- Witness for the amended claim C5 at `a = (1,1)`, `b = (2,0)`. -/
theorem claim_C5_witness :
    Vector2.beq (Vector2.add Vector2.one (Vector2.new F32.lit2 F32.lit0))
      (Vector2.add (Vector2.new F32.lit2 F32.lit0) Vector2.one) = true ∧
    Vector2.beq (Vector2.mul Vector2.one (Vector2.new F32.lit2 F32.lit0))
      (Vector2.mul (Vector2.new F32.lit2 F32.lit0) Vector2.one) = true :=
  ⟨(claim_C5_comm Vector2.one (Vector2.new F32.lit2 F32.lit0)).2.2.1 (by decide) (by decide),
   (claim_C5_comm Vector2.one (Vector2.new F32.lit2 F32.lit0)).2.2.2 (by decide) (by decide)⟩

/-- Claim C6 (amended): `a - a == zero()` holds for every `a` with finite
components (it fails when a component is NaN or infinite, where the
difference is NaN), and `a / a == one()` holds for every `a` with finite
nonzero components (it fails for NaN, infinite, and zero components). -/
theorem claim_C6_sub_div : ∀ a : Vector2,
    (F32.isFinite a.x = true → F32.isFinite a.y = true →
      Vector2.beq (Vector2.sub a a) Vector2.zero = true) ∧
    (F32.isFinite a.x = true → F32.isFinite a.y = true →
      F32.isZero a.x = false → F32.isZero a.y = false →
      Vector2.beq (Vector2.div a a) Vector2.one = true) := by
  intro a
  constructor
  · intro hx hy
    obtain ⟨s1, m1, e1, hx'⟩ := F32.isFinite_fin hx
    obtain ⟨s2, m2, e2, hy'⟩ := F32.isFinite_fin hy
    show (F32.beq (F32.sub a.x a.x) F32.lit0 && F32.beq (F32.sub a.y a.y) F32.lit0) = true
    rw [hx', hy', F32.sub_self_fin, F32.sub_self_fin]
    decide
  · intro hx hy hzx hzy
    obtain ⟨s1, m1, e1, hx'⟩ := F32.isFinite_fin hx
    obtain ⟨s2, m2, e2, hy'⟩ := F32.isFinite_fin hy
    rw [hx'] at hzx
    rw [hy'] at hzy
    have hm1 : m1 ≠ 0 := by simpa [F32.isZero] using hzx
    have hm2 : m2 ≠ 0 := by simpa [F32.isZero] using hzy
    show (F32.beq (F32.div a.x a.x) F32.lit1 && F32.beq (F32.div a.y a.y) F32.lit1) = true
    rw [hx', hy', F32.div_self_fin _ _ _ hm1, F32.div_self_fin _ _ _ hm2]
    decide

/-- Counterexample to claim C6 as stated: at `a = (+inf, +inf)` the
difference `a - a` is `(NaN, NaN)`, which compares unequal to `zero()`. -/
theorem claim_C6_counterexample :
    Vector2.beq (Vector2.sub Vector2.positive_infinity Vector2.positive_infinity)
      Vector2.zero = false := by
  decide

/-- Witness for the amended claim C6 at `a = (2, 2)`. -/
theorem claim_C6_witness :
    Vector2.beq (Vector2.sub (Vector2.new F32.lit2 F32.lit2) (Vector2.new F32.lit2 F32.lit2))
      Vector2.zero = true ∧
    Vector2.beq (Vector2.div (Vector2.new F32.lit2 F32.lit2) (Vector2.new F32.lit2 F32.lit2))
      Vector2.one = true :=
  ⟨(claim_C6_sub_div (Vector2.new F32.lit2 F32.lit2)).1 (by decide) (by decide),
   (claim_C6_sub_div (Vector2.new F32.lit2 F32.lit2)).2 (by decide) (by decide)
     (by decide) (by decide)⟩

/-- Claim C7 (amended): `2 * a`, `a * 2` and `Vector2::new(2*a.x, 2*a.y)`
always produce the very same value; the `==` comparisons between them return
`true` whenever `a` has no NaN component, and fail when a component is NaN
(NaN compares unequal to itself). -/
theorem claim_C7_scalar : ∀ a : Vector2,
    Vector2.f32Mul F32.lit2 a = Vector2.mulF32 a F32.lit2 ∧
    Vector2.f32Mul F32.lit2 a = Vector2.new (F32.mul F32.lit2 a.x) (F32.mul F32.lit2 a.y) ∧
    (a.x ≠ F32.nan → a.y ≠ F32.nan →
      Vector2.beq (Vector2.f32Mul F32.lit2 a) (Vector2.mulF32 a F32.lit2) = true ∧
      Vector2.beq (Vector2.mulF32 a F32.lit2)
        (Vector2.new (F32.mul F32.lit2 a.x) (F32.mul F32.lit2 a.y)) = true) := by
  intro a
  have h1 : Vector2.f32Mul F32.lit2 a = Vector2.mulF32 a F32.lit2 := by
    show Vector2.new _ _ = Vector2.new _ _
    rw [F32.mul_comm' F32.lit2 a.x, F32.mul_comm' F32.lit2 a.y]
  refine ⟨h1, rfl, fun hx hy => ?_⟩
  have hnx : F32.mul F32.lit2 a.x ≠ F32.nan := F32.mul_lit2_ne_nan a.x hx
  have hny : F32.mul F32.lit2 a.y ≠ F32.nan := F32.mul_lit2_ne_nan a.y hy
  constructor
  · rw [← h1]
    exact Vector2.beq_refl' _ hnx hny
  · rw [← h1]
    exact Vector2.beq_refl' _ hnx hny

/-- Counterexample to claim C7 as stated: at `a = (NaN, 0)` the comparison
`2 * a == a * 2` is false. -/
theorem claim_C7_counterexample :
    Vector2.beq (Vector2.f32Mul F32.lit2 (Vector2.new F32.nan F32.lit0))
      (Vector2.mulF32 (Vector2.new F32.nan F32.lit0) F32.lit2) = false := by
  decide

/-- Witness for the amended claim C7 at `a = (1, 1)`. -/
theorem claim_C7_witness :
    Vector2.beq (Vector2.f32Mul F32.lit2 Vector2.one) (Vector2.mulF32 Vector2.one F32.lit2)
      = true ∧
    Vector2.beq (Vector2.mulF32 Vector2.one F32.lit2)
      (Vector2.new (F32.mul F32.lit2 Vector2.one.x) (F32.mul F32.lit2 Vector2.one.y))
      = true :=
  (claim_C7_scalar Vector2.one).2.2 (by decide) (by decide)

/-- Claim C4 (amended): `lerp(a, b, t)` clamps `t` to `[0, 1]` and then
applies `a + (b - a) * t` component-wise, and `lerp_unclamped` applies the
identical formula without the clamp.  The endpoint identities
`lerp(a, b, 0) == a` and `lerp(a, b, 1) == b` — and the clamping of `t < 0`
to `a` and of `t > 1` to `b` — hold for genuine float inputs whose
component-wise difference `b - a` is finite (for the `0` endpoint) and
computed without rounding (for the `1` endpoint); they fail in general, for
non-finite components and for differences that round. -/
theorem claim_C4_lerp :
    (∀ (a b : Vector2) (t : F32),
      Vector2.lerp a b t = Vector2.lerp_unclamped a b (F32.clamp t F32.lit0 F32.lit1)) ∧
    (∀ (a b : Vector2) (t : F32),
      Vector2.lerp_unclamped a b t =
        Vector2.new (F32.add a.x (F32.mul (F32.sub b.x a.x) t))
          (F32.add a.y (F32.mul (F32.sub b.y a.y) t))) ∧
    (∀ (a b : Vector2) (t : F32),
      a.x ≠ F32.nan → a.y ≠ F32.nan →
      F32.canonicalB a.x = true → F32.canonicalB a.y = true →
      F32.isFinite (F32.sub b.x a.x) = true → F32.isFinite (F32.sub b.y a.y) = true →
      (t = F32.lit0 ∨ F32.lt t F32.lit0 = true) →
      Vector2.beq (Vector2.lerp a b t) a = true) ∧
    (∀ (a b : Vector2) (t : F32),
      F32.canonicalB a.x = true → F32.canonicalB a.y = true →
      F32.canonicalB b.x = true → F32.canonicalB b.y = true →
      F32.canonicalB (F32.sub b.x a.x) = true → F32.canonicalB (F32.sub b.y a.y) = true →
      F32.subIsExact b.x a.x = true → F32.subIsExact b.y a.y = true →
      (t = F32.lit1 ∨ F32.lt F32.lit1 t = true) →
      Vector2.beq (Vector2.lerp a b t) b = true) := by
  refine ⟨fun a b t => rfl, fun a b t => rfl, ?_, ?_⟩
  · intro a b t hx hy hcx hcy hdx hdy ht
    have hcl : F32.clamp t F32.lit0 F32.lit1 = F32.lit0 := by
      rcases ht with rfl | ht
      · exact F32.clamp_lit0
      · exact F32.clamp_of_lt_zero t ht
    show Vector2.beq (Vector2.lerp_unclamped a b (F32.clamp t F32.lit0 F32.lit1)) a = true
    rw [hcl]
    show (F32.beq (F32.add a.x (F32.mul (F32.sub b.x a.x) F32.lit0)) a.x
       && F32.beq (F32.add a.y (F32.mul (F32.sub b.y a.y) F32.lit0)) a.y) = true
    rw [F32.lerp_zero_comp a.x (F32.sub b.x a.x) hx hcx hdx,
        F32.lerp_zero_comp a.y (F32.sub b.y a.y) hy hcy hdy]
    rfl
  · intro a b t hcx hcy hcbx hcby hcdx hcdy hex hey ht
    have hcl : F32.clamp t F32.lit0 F32.lit1 = F32.lit1 := by
      rcases ht with rfl | ht
      · exact F32.clamp_lit1
      · exact F32.clamp_of_one_lt t ht
    show Vector2.beq (Vector2.lerp_unclamped a b (F32.clamp t F32.lit0 F32.lit1)) b = true
    rw [hcl]
    show (F32.beq (F32.add a.x (F32.mul (F32.sub b.x a.x) F32.lit1)) b.x
       && F32.beq (F32.add a.y (F32.mul (F32.sub b.y a.y) F32.lit1)) b.y) = true
    rw [F32.lerp_one_comp a.x b.x hcx hcbx hcdx hex,
        F32.lerp_one_comp a.y b.y hcy hcby hcdy hey]
    rfl

/-- Counterexample to claim C4 as stated: with `b.x` infinite,
`lerp(a, b, 0) == a` is false (the x-component is NaN); and with the finite
inputs `a = (-16777215, 0)`, `b = (2, 0)`, the subtraction `b.x - a.x`
rounds, so `lerp(a, b, 1).x = 1` and `lerp(a, b, 1) == b` is false. -/
theorem claim_C4_counterexample :
    Vector2.beq (Vector2.lerp Vector2.zero Vector2.positive_infinity F32.lit0)
      Vector2.zero = false ∧
    Vector2.beq
      (Vector2.lerp (Vector2.new (F32.ofLit true 16777215 1) F32.lit0)
        (Vector2.new F32.lit2 F32.lit0) F32.lit1)
      (Vector2.new F32.lit2 F32.lit0) = false :=
  ⟨by decide, by decide⟩

/-- Witness for the amended claim C4 at `a = (1, 1)`, `b = (2, 2)` (the
difference is exact) for both endpoints. -/
theorem claim_C4_witness :
    Vector2.beq (Vector2.lerp Vector2.one (Vector2.new F32.lit2 F32.lit2) F32.lit0)
      Vector2.one = true ∧
    Vector2.beq (Vector2.lerp Vector2.one (Vector2.new F32.lit2 F32.lit2) F32.lit1)
      (Vector2.new F32.lit2 F32.lit2) = true :=
  ⟨claim_C4_lerp.2.2.1 Vector2.one (Vector2.new F32.lit2 F32.lit2) F32.lit0 (by decide)
      (by decide) (by decide) (by decide) (by decide) (by decide) (Or.inl rfl),
   claim_C4_lerp.2.2.2 Vector2.one (Vector2.new F32.lit2 F32.lit2) F32.lit1 (by decide)
      (by decide) (by decide) (by decide) (by decide) (by decide) (by decide) (by decide)
      (Or.inl rfl)⟩
